import Mathlib

/-!
Verification of the encrypted multi-tenant credential store of
`media-mgmt-agent` (`src/db_manager.py`, class `DatabaseManager`).

The SQLite tables `users`, `credentials` and `settings` are embedded as
lists of row structures; each public method of `DatabaseManager` becomes a
pure Lean function on this state.  Timestamps (`CURRENT_TIMESTAMP`) are
modelled by an explicit `now : Nat` argument; SQLite `AUTOINCREMENT` by an
explicit `nextUserId` counter starting at 1.

Two external libraries appear in the source and are modelled as parameters:
* `hashlib.sha256(...).hexdigest()` becomes a parameter `H : String → String`
  (a deterministic one-way digest);
* `cryptography.fernet.Fernet` becomes a `Fernet` structure bundling the
  encrypt/decrypt functions with the documented contract of the library
  (round-trip, authentication, non-empty tokens).

Python truthiness (`if url:`, `if encryption_key:`, `if not user_id:`) is
embedded exactly: an `Optional[str]` is falsy when it is `None` or the
empty string, an `Optional[int]` is falsy when it is `None` or `0`.
-/

namespace MediaAgent

/-- Fernet cipher of the `cryptography` package, used by `DatabaseManager`
for the `encrypted_url` / `encrypted_api_key` columns.  The library is
external to the repository, so it is carried as a structure whose fields
are its documented contract: decryption inverts encryption, only genuine
tokens decrypt (authenticated encryption — `decrypt` raises `InvalidToken`
otherwise, modelled as `none`), and a token is never the empty string. -/
structure Fernet where
  enc : String → String
  dec : String → Option String
  dec_enc : ∀ s, dec (enc s) = some s
  auth : ∀ c s, dec c = some s → c = enc s
  enc_ne : ∀ s, enc s ≠ ""

/-- Python truthiness of an `Optional[str]`: `None` and `""` are falsy. -/
def optTruthy : Option String → Bool
  | none => false
  | some s => s != ""

/-- `DatabaseManager._encrypt` (db_manager.py:101-105): returns `""`
unchanged without invoking the cipher, otherwise encrypts. -/
def encryptData (f : Fernet) (data : String) : String :=
  if data = "" then "" else f.enc data

/-- `DatabaseManager._decrypt` (db_manager.py:107-111): returns `""`
unchanged without invoking the cipher, otherwise decrypts; a failed
decryption (Fernet `InvalidToken`) propagates as `Except.error`. -/
def decryptData (f : Fernet) (encrypted_data : String) : Except Unit String :=
  if encrypted_data = "" then .ok ""
  else
    match f.dec encrypted_data with
    | some s => .ok s
    | none => .error ()

/-- A row of the `users` table (db_manager.py:59-66). -/
structure UserRow where
  id : Nat
  username : String
  password_hash : String
  created_at : Nat
deriving Repr, DecidableEq

/-- A row of the `credentials` table (db_manager.py:69-81). -/
structure CredRow where
  user_id : Nat
  service_name : String
  encrypted_url : Option String
  encrypted_api_key : Option String
  created_at : Nat
  updated_at : Nat
deriving Repr, DecidableEq

/-- A row of the `settings` table (db_manager.py:84-93). -/
structure SettingRow where
  user_id : Nat
  setting_key : String
  setting_value : String
deriving Repr, DecidableEq

/-- The SQLite database state: the three tables plus the `AUTOINCREMENT`
counter of `users.id` (SQLite row ids start at 1). -/
structure DB where
  users : List UserRow
  nextUserId : Nat
  credentials : List CredRow
  settings : List SettingRow
deriving Repr, DecidableEq

/-- A freshly initialised database (`_init_database` creates empty tables). -/
def DB.empty : DB :=
  { users := [], nextUserId := 1, credentials := [], settings := [] }

/-- `DatabaseManager.create_user` (db_manager.py:114-136): inserts the
username with the digest of the password; the UNIQUE constraint on
`username` raises `IntegrityError`, which is caught and reported as
`false` with the transaction rolled back. -/
def create_user (H : String → String) (db : DB) (username password : String)
    (now : Nat) : DB × Bool :=
  if db.users.any (fun r => r.username == username) then
    (db, false)
  else
    ({ db with
        users := db.users ++ [⟨db.nextUserId, username, H password, now⟩],
        nextUserId := db.nextUserId + 1 },
      true)

/-- `DatabaseManager.verify_user` (db_manager.py:138-157): recomputes the
digest and selects the id of the first row matching both username and
digest; `None` when there is no match. -/
def verify_user (H : String → String) (db : DB) (username password : String) :
    Option Nat :=
  (db.users.find? (fun r => r.username == username
    && r.password_hash == H password)).map (·.id)

/-- `DatabaseManager.change_password` (db_manager.py:174-198): re-verifies
the old password; `if not user_id` is Python truthiness, so both `None`
and id `0` fail closed; otherwise the row with that id gets the new
digest. -/
def change_password (H : String → String) (db : DB)
    (username old_password new_password : String) : DB × Bool :=
  match verify_user H db username old_password with
  | none => (db, false)
  | some user_id =>
    if user_id == 0 then (db, false)
    else
      ({ db with
          users := db.users.map (fun r =>
            if r.id == user_id then { r with password_hash := H new_password }
            else r) },
        true)

/-- The field preparation of `save_credentials` (db_manager.py:217-218):
`self._encrypt(url) if url else None` — a falsy (`None` or empty) field is
stored as NULL, never as a ciphertext. -/
def encField (f : Fernet) (x : Option String) : Option String :=
  match x with
  | some s => if s != "" then some (encryptData f s) else none
  | none => none

/-- `DatabaseManager.save_credentials` (db_manager.py:201-231): encrypts
the two fields, then `INSERT ... ON CONFLICT(user_id, service_name) DO
UPDATE` — insert a fresh row with both timestamps at `now`, or overwrite
the encrypted fields of the conflicting row and refresh only
`updated_at`. -/
def save_credentials (f : Fernet) (db : DB) (user_id : Nat)
    (service_name : String) (url api_key : Option String) (now : Nat) : DB :=
  let encrypted_url := encField f url
  let encrypted_key := encField f api_key
  if db.credentials.any (fun r =>
      r.user_id == user_id && r.service_name == service_name) then
    { db with
        credentials := db.credentials.map (fun r =>
          if r.user_id == user_id && r.service_name == service_name then
            { r with
                encrypted_url := encrypted_url,
                encrypted_api_key := encrypted_key,
                updated_at := now }
          else r) }
  else
    { db with
        credentials := db.credentials ++
          [⟨user_id, service_name, encrypted_url, encrypted_key, now, now⟩] }

/-- The decrypted credential pair returned by `get_credentials`. -/
structure Creds where
  url : Option String
  api_key : Option String
deriving Repr, DecidableEq

/-- The field read-back of `get_credentials` (db_manager.py:257-258):
`self._decrypt(result[0]) if result[0] else None` — a NULL or empty stored
column reads back as `None` without touching the cipher; otherwise the
decryption (which may raise) is performed. -/
def decField (f : Fernet) (x : Option String) : Except Unit (Option String) :=
  match x with
  | some s => if s != "" then (decryptData f s).map some else .ok none
  | none => .ok none

/-- `DatabaseManager.get_credentials` (db_manager.py:233-259): selects the
row for `(user_id, service_name)`; `None` (modelled `.ok none`) when
absent, otherwise the decrypted pair; a decryption failure propagates. -/
def get_credentials (f : Fernet) (db : DB) (user_id : Nat)
    (service_name : String) : Except Unit (Option Creds) :=
  match db.credentials.find? (fun r =>
      r.user_id == user_id && r.service_name == service_name) with
  | none => .ok none
  | some r => do
    let u ← decField f r.encrypted_url
    let k ← decField f r.encrypted_api_key
    pure (some ⟨u, k⟩)

/-- `DatabaseManager.get_all_credentials` (db_manager.py:261-287): all of
one user's rows, decrypted, keyed by service name (the SQL `WHERE
user_id = ?` filter followed by the per-row decryption loop). -/
def get_all_credentials (f : Fernet) (db : DB) (user_id : Nat) :
    Except Unit (List (String × Creds)) :=
  (db.credentials.filter (fun r => r.user_id == user_id)).mapM (fun r => do
    let u ← decField f r.encrypted_url
    let k ← decField f r.encrypted_api_key
    pure (r.service_name, (⟨u, k⟩ : Creds)))

/-- `DatabaseManager.save_setting` (db_manager.py:300-310): upsert on
`(user_id, setting_key)`. -/
def save_setting (db : DB) (user_id : Nat) (key value : String) : DB :=
  if db.settings.any (fun r =>
      r.user_id == user_id && r.setting_key == key) then
    { db with
        settings := db.settings.map (fun r =>
          if r.user_id == user_id && r.setting_key == key then
            { r with setting_value := value }
          else r) }
  else
    { db with settings := db.settings ++ [⟨user_id, key, value⟩] }

/-- `DatabaseManager.get_setting` (db_manager.py:312-321). -/
def get_setting (db : DB) (user_id : Nat) (key : String) : Option String :=
  (db.settings.find? (fun r =>
    r.user_id == user_id && r.setting_key == key)).map (·.setting_value)

/-- `DatabaseManager.get_all_settings` (db_manager.py:323-331). -/
def get_all_settings (db : DB) (user_id : Nat) : List (String × String) :=
  (db.settings.filter (fun r => r.user_id == user_id)).map
    (fun r => (r.setting_key, r.setting_value))

/-- Key acquisition in `DatabaseManager.__init__` (db_manager.py:36-48):
`if encryption_key:` (Python truthiness — an empty string falls through),
else load the key file if it exists, else generate a fresh key and persist
it.  The filesystem state of `.encryption_key` is the `file` argument, the
random `Fernet.generate_key()` output is the `freshKey` argument; the
result is the key used together with the key file's new contents. -/
def obtainKey (encryption_key : Option String) (file : Option String)
    (freshKey : String) : String × Option String :=
  let fromFile : String × Option String :=
    match file with
    | some contents => (contents, some contents)
    | none => (freshKey, some freshKey)
  match encryption_key with
  | some k => if k != "" then (k, file) else fromFile
  | none => fromFile

/-- The observable round-trip of one credential field through
`save_credentials` followed by `get_credentials`: a falsy input (`None` or
`""`) is stored as NULL and read back as `None`; any other string comes
back unchanged. -/
def readBack : Option String → Option String
  | none => none
  | some v => if v = "" then none else some v

/-- A concrete cipher satisfying the `Fernet` contract (tokens are the
plaintext tagged with a leading `'T'`), used to instantiate theorems at
concrete inputs. -/
def tagCipher : Fernet where
  enc s := String.mk ('T' :: s.data)
  dec c :=
    match c.data with
    | [] => none
    | ch :: rest => if ch = 'T' then some (String.mk rest) else none
  dec_enc := fun ⟨_⟩ => by simp
  auth := fun c s h => by
    obtain ⟨data⟩ := c
    cases data with
    | nil => simp at h
    | cons ch rest =>
      simp only at h
      split at h
      · next hch =>
        obtain rfl := hch
        obtain ⟨s⟩ := s
        simp only [Option.some.injEq] at h
        cases h
        rfl
      · exact absurd h (by simp)
  enc_ne := fun s h => by
    have := congrArg String.data h
    simp at this

/-! ## Shared lemmas -/

/-- Mapping a function that neither creates nor alters matches leaves
`find?` unchanged. -/
theorem find?_map_of_preserve {α : Type _} (g : α → α) (p : α → Bool)
    (l : List α) (h : ∀ x, p (g x) = p x)
    (h2 : ∀ x, p x = true → g x = x) :
    (l.map g).find? p = l.find? p := by
  induction l with
  | nil => rfl
  | cons a l ih =>
    simp only [List.map_cons]
    by_cases ha : p a
    · rw [List.find?_cons_of_pos _ ((h a).trans ha),
        List.find?_cons_of_pos _ ha, h2 a ha]
    · rw [List.find?_cons_of_neg _ (by simp [h a, ha]),
        List.find?_cons_of_neg _ (by simpa using ha), ih]

/-- Mapping a function that neither creates nor alters matches leaves
`filter` unchanged. -/
theorem filter_map_of_preserve {α : Type _} (g : α → α) (p : α → Bool)
    (l : List α) (h : ∀ x, p (g x) = p x)
    (h2 : ∀ x, p x = true → g x = x) :
    (l.map g).filter p = l.filter p := by
  induction l with
  | nil => rfl
  | cons a l ih =>
    simp only [List.map_cons, List.filter_cons]
    by_cases ha : p a
    · simp [h a, ha, h2 a ha, ih]
    · simp [h a, (by simpa using ha : p a = false), ih]

/-- Mapping a function under which predicate `q` tracks predicate `p`
turns a `find?` for `q` into the image of the `find?` for `p`. -/
theorem find?_map_shift {α : Type _} (g : α → α) (p q : α → Bool)
    (l : List α) (h : ∀ x ∈ l, q (g x) = p x) :
    (l.map g).find? q = (l.find? p).map g := by
  induction l with
  | nil => rfl
  | cons a l ih =>
    simp only [List.map_cons]
    have ha := h a (List.mem_cons_self a l)
    by_cases hpa : p a
    · rw [List.find?_cons_of_pos _ (ha.trans hpa),
        List.find?_cons_of_pos _ hpa]
      rfl
    · rw [List.find?_cons_of_neg _ (by simp [ha, hpa]),
        List.find?_cons_of_neg _ (by simpa using hpa),
        ih (fun x hx => h x (List.mem_cons_of_mem a hx))]

/-- In a list whose projections under `f` are pairwise distinct, two
members with the same projection are equal. -/
theorem pairwise_mem_eq {α β : Type _} (f : α → β) (l : List α)
    (hp : l.Pairwise (fun a b => f a ≠ f b)) {x y : α}
    (hx : x ∈ l) (hy : y ∈ l) (hf : f x = f y) : x = y := by
  induction l with
  | nil => cases hx
  | cons a t ih =>
    rw [List.pairwise_cons] at hp
    rcases List.mem_cons.mp hx with rfl | hx' <;>
      rcases List.mem_cons.mp hy with rfl | hy'
    · rfl
    · exact absurd hf (hp.1 y hy')
    · exact absurd hf.symm (hp.1 x hx')
    · exact ih hp.2 hx' hy'

/-- Round-trip through the store's `_encrypt` / `_decrypt` helpers for
non-empty plaintext. -/
theorem decrypt_encrypt (f : Fernet) (s : String) (hs : s ≠ "") :
    decryptData f (encryptData f s) = .ok s := by
  unfold encryptData decryptData
  rw [if_neg hs, if_neg (f.enc_ne s), f.dec_enc]

/-- One credential field, saved and read back: `decField` inverts
`encField` up to the truthiness normalisation `readBack`. -/
theorem decField_encField (f : Fernet) (x : Option String) :
    decField f (encField f x) = .ok (readBack x) := by
  cases x with
  | none => rfl
  | some v =>
    by_cases hv : v = ""
    · subst hv; rfl
    · have hne := f.enc_ne v
      have henc : encField f (some v) = some (f.enc v) := by
        simp [encField, encryptData, hv]
      rw [henc]
      simp only [decField, readBack, if_neg hv]
      rw [if_pos (by simpa using hne)]
      simp only [decryptData, if_neg hne, f.dec_enc]
      rfl

/-- After a save, the `(u, svc)` lookup finds a row carrying exactly the
freshly prepared encrypted fields (whether the save inserted or updated). -/
theorem find?_after_save (f : Fernet) (db : DB) (u : Nat) (svc : String)
    (url key : Option String) (t : Nat) :
    ∃ r, (save_credentials f db u svc url key t).credentials.find?
        (fun x => x.user_id == u && x.service_name == svc) = some r
      ∧ r.encrypted_url = encField f url
      ∧ r.encrypted_api_key = encField f key := by
  unfold save_credentials
  simp only
  split
  · next hany =>
    rw [find?_map_shift
      (fun r => if r.user_id == u && r.service_name == svc then { r with encrypted_url := encField f url, encrypted_api_key := encField f key, updated_at := t } else r)
      (fun x => x.user_id == u && x.service_name == svc)
      (fun x => x.user_id == u && x.service_name == svc)
      db.credentials
      (fun x _ => by by_cases hx : (x.user_id == u && x.service_name == svc) <;>
        simp [hx])]
    obtain ⟨r₀, hmem, hP⟩ := List.any_eq_true.mp hany
    have hsome : (db.credentials.find?
        (fun x => x.user_id == u && x.service_name == svc)).isSome :=
      List.find?_isSome.mpr ⟨r₀, hmem, hP⟩
    obtain ⟨r₁, hfind⟩ := Option.isSome_iff_exists.mp hsome
    have hP₁ := List.find?_some hfind
    refine ⟨_, by rw [hfind]; rfl, ?_, ?_⟩ <;> simp [hP₁]
  · next hany =>
    have hnone : db.credentials.find?
        (fun x => x.user_id == u && x.service_name == svc) = none := by
      rw [List.find?_eq_none]
      intro x hx hPx
      exact hany (List.any_eq_true.mpr ⟨x, hx, hPx⟩)
    refine ⟨⟨u, svc, encField f url, encField f key, t, t⟩, ?_, rfl, rfl⟩
    rw [List.find?_append, hnone, Option.none_or,
      List.find?_cons_of_pos _ (by simp)]

/-- Saving then reading the same `(u, svc)` pair returns the row with each
field normalised by `readBack` (absent/empty stored as NULL and read back
as `None`, anything else round-tripped). -/
theorem get_after_save (f : Fernet) (db : DB) (u : Nat) (svc : String)
    (url key : Option String) (t : Nat) :
    get_credentials f (save_credentials f db u svc url key t) u svc
      = .ok (some ⟨readBack url, readBack key⟩) := by
  obtain ⟨r, hfind, hu, hk⟩ := find?_after_save f db u svc url key t
  unfold get_credentials
  rw [hfind]
  simp only [hu, hk, decField_encField]
  rfl

/-- Commuting a match-preserving map past `filter`. -/
theorem filter_map_comm {α : Type _} (g : α → α) (p : α → Bool)
    (l : List α) (h : ∀ x, p (g x) = p x) :
    (l.map g).filter p = (l.filter p).map g := by
  induction l with
  | nil => rfl
  | cons a l ih =>
    simp only [List.map_cons, List.filter_cons, h a]
    by_cases ha : p a <;> simp [ha, ih]

/-- The update branch of `save_credentials` (`ON CONFLICT ... DO UPDATE`). -/
theorem save_credentials_update (f : Fernet) (db : DB) (u : Nat)
    (svc : String) (url key : Option String) (t : Nat)
    (hany : (db.credentials.any
      fun r => r.user_id == u && r.service_name == svc) = true) :
    (save_credentials f db u svc url key t).credentials
      = db.credentials.map (fun r => if r.user_id == u && r.service_name == svc then { r with encrypted_url := encField f url, encrypted_api_key := encField f key, updated_at := t } else r) := by
  unfold save_credentials
  rw [if_pos (by simp [hany])]

/-- The insert branch of `save_credentials`. -/
theorem save_credentials_insert (f : Fernet) (db : DB) (u : Nat)
    (svc : String) (url key : Option String) (t : Nat)
    (hany : (db.credentials.any
      fun r => r.user_id == u && r.service_name == svc) = false) :
    (save_credentials f db u svc url key t).credentials
      = db.credentials ++ [⟨u, svc, encField f url, encField f key, t, t⟩] := by
  unfold save_credentials
  rw [if_neg (by simp [hany])]

/-! ## Claims -/

/-- C1: for every non-empty string `s`, the store's `_decrypt` inverts
`_encrypt` (`decrypt(encrypt(s)) = s`); the empty string short-circuits in
both helpers with a result that does not depend on the cipher (so the
cipher is never invoked on empty input); a `None` field is stored as NULL
and read back as `None` without touching the cipher. -/
theorem encryption_round_trip (f : Fernet) :
    (∀ s : String, s ≠ "" → decryptData f (encryptData f s) = .ok s)
    ∧ (∀ g : Fernet, encryptData g "" = "" ∧ decryptData g "" = .ok "")
    ∧ encField f none = none
    ∧ (∀ g : Fernet, decField g none = .ok none) :=
  ⟨fun s hs => decrypt_encrypt f s hs, fun _ => ⟨rfl, rfl⟩, rfl, fun _ => rfl⟩

/-- Witness for C1 at a concrete cipher and plaintext. -/
theorem encryption_round_trip_witness :
    decryptData tagCipher (encryptData tagCipher "secret") = .ok "secret"
    ∧ encryptData tagCipher "" = "" :=
  ⟨(encryption_round_trip tagCipher).1 "secret" (by decide),
   ((encryption_round_trip tagCipher).2.1 tagCipher).1⟩

/-- C10: saving a credential with both fields absent still materialises
the row — a subsequent `get_credentials` returns the pair
`{url := none, api_key := none}`, not the not-found result. -/
theorem save_none_materializes (f : Fernet) (db : DB) (u : Nat)
    (svc : String) (t : Nat) :
    get_credentials f (save_credentials f db u svc none none t) u svc
      = .ok (some ⟨none, none⟩) :=
  get_after_save f db u svc none none t

/-- C9: an empty-string field is indistinguishable from an absent one —
saving `url = ""` and `api_key = ""` stores NULL for the encrypted fields
of the `(u, svc)` row, and reading back returns `None` for them rather
than the empty string. -/
theorem empty_field_stored_null (f : Fernet) (db : DB) (u : Nat)
    (svc : String) (t : Nat) :
    (∀ r ∈ (save_credentials f db u svc (some "") (some "") t).credentials,
        r.user_id = u → r.service_name = svc →
        r.encrypted_url = none ∧ r.encrypted_api_key = none)
    ∧ get_credentials f (save_credentials f db u svc (some "") (some "") t)
        u svc = .ok (some ⟨none, none⟩) := by
  constructor
  · intro r hr hru hrs
    have hP : (r.user_id == u && r.service_name == svc) = true := by
      simp [hru, hrs]
    revert hr
    unfold save_credentials
    simp only
    split
    · next hany =>
      intro hr
      obtain ⟨x, hx, hgx⟩ := List.mem_map.mp hr
      by_cases hcond : (x.user_id == u && x.service_name == svc) = true
      · rw [if_pos hcond] at hgx
        rw [← hgx]
        exact ⟨rfl, rfl⟩
      · rw [if_neg hcond] at hgx
        rw [← hgx] at hP
        exact absurd hP hcond
    · next hany =>
      intro hr
      rcases List.mem_append.mp hr with hl | hnew
      · exact absurd (List.any_eq_true.mpr ⟨r, hl, hP⟩) hany
      · rw [List.mem_singleton.mp hnew]
        exact ⟨rfl, rfl⟩
  · exact get_after_save f db u svc (some "") (some "") t

/-- Witness for C9 at a concrete store state. -/
theorem empty_field_stored_null_witness :
    get_credentials tagCipher
        (save_credentials tagCipher DB.empty 1 "radarr" (some "") (some "") 5)
        1 "radarr" = .ok (some ⟨none, none⟩) :=
  (empty_field_stored_null tagCipher DB.empty 1 "radarr" 5).2

/-- C2: `save_credentials` is an upsert keyed on `(user_id, service_name)`:
after saving `(url1, key1)` at time `t1` and `(url2, key2)` at time `t2`
for the same `(u, svc)` on a store with no prior `(u, svc)` row, exactly
one `(u, svc)` credentials row exists, it carries the second values with
`created_at` fixed at `t1` and `updated_at` refreshed to `t2`, and
`get_credentials` returns the second values. -/
theorem save_credentials_upsert (f : Fernet) (db : DB) (u : Nat)
    (svc url1 key1 url2 key2 : String) (t1 t2 : Nat)
    (hno : ∀ r ∈ db.credentials, ¬(r.user_id = u ∧ r.service_name = svc))
    (hu2 : url2 ≠ "") (hk2 : key2 ≠ "") :
    ((save_credentials f (save_credentials f db u svc (some url1) (some key1) t1)
        u svc (some url2) (some key2) t2).credentials.filter
          (fun r => r.user_id == u && r.service_name == svc))
      = [⟨u, svc, some (f.enc url2), some (f.enc key2), t1, t2⟩]
    ∧ get_credentials f
        (save_credentials f (save_credentials f db u svc (some url1) (some key1) t1)
          u svc (some url2) (some key2) t2) u svc
      = .ok (some ⟨some url2, some key2⟩) := by
  have hany1 : (db.credentials.any
      fun r => r.user_id == u && r.service_name == svc) = false := by
    rw [List.any_eq_false]
    intro x hx hPx
    simp only [Bool.and_eq_true, beq_iff_eq] at hPx
    exact hno x hx hPx
  have hdb1 := save_credentials_insert f db u svc (some url1) (some key1) t1 hany1
  have hany2 : ((save_credentials f db u svc (some url1) (some key1) t1).credentials.any
      fun r => r.user_id == u && r.service_name == svc) = true := by
    rw [hdb1]
    simp
  have hdb2 := save_credentials_update f
    (save_credentials f db u svc (some url1) (some key1) t1)
    u svc (some url2) (some key2) t2 hany2
  rw [hdb1] at hdb2
  constructor
  · rw [hdb2, filter_map_comm _ _ _
      (fun x => by by_cases hx : (x.user_id == u && x.service_name == svc) <;> simp [hx]),
      List.filter_append]
    have hfilter0 : db.credentials.filter
        (fun r => r.user_id == u && r.service_name == svc) = [] := by
      rw [List.filter_eq_nil_iff]
      intro x hx hPx
      simp only [Bool.and_eq_true, beq_iff_eq] at hPx
      exact hno x hx hPx
    rw [hfilter0]
    simp [encField, encryptData, hu2, hk2]
  · have h2 := get_after_save f
      (save_credentials f db u svc (some url1) (some key1) t1)
      u svc (some url2) (some key2) t2
    simpa [readBack, hu2, hk2] using h2

/-- Witness for C2 at a concrete store: two saves for user 1 / "radarr". -/
theorem save_credentials_upsert_witness :
    ((save_credentials tagCipher
        (save_credentials tagCipher DB.empty 1 "radarr"
          (some "http://a") (some "k1") 3)
        1 "radarr" (some "http://b") (some "k1") 7).credentials.filter
          (fun r => r.user_id == 1 && r.service_name == "radarr"))
      = [⟨1, "radarr", some (tagCipher.enc "http://b"),
          some (tagCipher.enc "k1"), 3, 7⟩]
    ∧ get_credentials tagCipher
        (save_credentials tagCipher
          (save_credentials tagCipher DB.empty 1 "radarr"
            (some "http://a") (some "k1") 3)
          1 "radarr" (some "http://b") (some "k1") 7) 1 "radarr"
      = .ok (some ⟨some "http://b", some "k1"⟩) :=
  save_credentials_upsert tagCipher DB.empty 1 "radarr" "http://a" "k1"
    "http://b" "k1" 3 7 (by simp [DB.empty]) (by decide) (by decide)

/-- After creating a fresh user, verification with the same password
returns the freshly assigned id. -/
theorem verify_after_create (H : String → String) (db : DB) (u pw : String)
    (t : Nat) (hfresh : ∀ r ∈ db.users, r.username ≠ u) :
    verify_user H (create_user H db u pw t).1 u pw = some db.nextUserId := by
  have hany : (db.users.any fun r => r.username == u) = false := by
    rw [List.any_eq_false]
    intro x hx hPx
    exact hfresh x hx (by simpa using hPx)
  have h0 : db.users.find?
      (fun r => r.username == u && r.password_hash == H pw) = none := by
    rw [List.find?_eq_none]
    intro x hx hPx
    simp only [Bool.and_eq_true, beq_iff_eq] at hPx
    exact hfresh x hx hPx.1
  have hdb1 : create_user H db u pw t
      = ({ db with
          users := db.users ++ [⟨db.nextUserId, u, H pw, t⟩],
          nextUserId := db.nextUserId + 1 }, true) := by
    unfold create_user
    rw [if_neg (by simp [hany])]
  rw [hdb1]
  simp only [verify_user]
  rw [List.find?_append, h0, Option.none_or, List.find?_cons_of_pos _ (by simp)]
  rfl

/-- After creating a fresh user, verification with a password of a
different digest reports not-found. -/
theorem verify_after_create_wrong (H : String → String) (db : DB)
    (u pw pw2 : String) (t : Nat)
    (hfresh : ∀ r ∈ db.users, r.username ≠ u) (hH : H pw ≠ H pw2) :
    verify_user H (create_user H db u pw t).1 u pw2 = none := by
  have hany : (db.users.any fun r => r.username == u) = false := by
    rw [List.any_eq_false]
    intro x hx hPx
    exact hfresh x hx (by simpa using hPx)
  have h0 : db.users.find?
      (fun r => r.username == u && r.password_hash == H pw2) = none := by
    rw [List.find?_eq_none]
    intro x hx hPx
    simp only [Bool.and_eq_true, beq_iff_eq] at hPx
    exact hfresh x hx hPx.1
  have hdb1 : create_user H db u pw t
      = ({ db with
          users := db.users ++ [⟨db.nextUserId, u, H pw, t⟩],
          nextUserId := db.nextUserId + 1 }, true) := by
    unfold create_user
    rw [if_neg (by simp [hany])]
  rw [hdb1]
  simp only [verify_user]
  rw [List.find?_append, h0, Option.none_or,
    List.find?_cons_of_neg _ (by simp [hH])]
  rfl

/-- C3: duplicate signup — for a fresh username, the first `create_user`
succeeds, a second call with any other password returns `false` without
raising and leaves the store unchanged, the first password still verifies
(to the freshly assigned id) and the second does not. -/
theorem create_user_duplicate (H : String → String) (db : DB)
    (u pw1 pw2 : String) (t1 t2 : Nat)
    (hfresh : ∀ r ∈ db.users, r.username ≠ u)
    (hH : H pw1 ≠ H pw2) :
    (create_user H db u pw1 t1).2 = true
    ∧ create_user H (create_user H db u pw1 t1).1 u pw2 t2
        = ((create_user H db u pw1 t1).1, false)
    ∧ verify_user H (create_user H db u pw1 t1).1 u pw1 = some db.nextUserId
    ∧ verify_user H (create_user H db u pw1 t1).1 u pw2 = none := by
  have hany : (db.users.any fun r => r.username == u) = false := by
    rw [List.any_eq_false]
    intro x hx hPx
    exact hfresh x hx (by simpa using hPx)
  have hdb1 : create_user H db u pw1 t1
      = ({ db with
          users := db.users ++ [⟨db.nextUserId, u, H pw1, t1⟩],
          nextUserId := db.nextUserId + 1 }, true) := by
    unfold create_user
    rw [if_neg (by simp [hany])]
  refine ⟨by rw [hdb1], ?_,
    verify_after_create H db u pw1 t1 hfresh,
    verify_after_create_wrong H db u pw1 pw2 t1 hfresh hH⟩
  rw [hdb1]
  simp [create_user]

/-- Witness for C3 with a concrete digest, store and passwords. -/
theorem create_user_duplicate_witness :
    (create_user (fun s => s) DB.empty "alice" "pw1" 0).2 = true
    ∧ create_user (fun s => s)
        (create_user (fun s => s) DB.empty "alice" "pw1" 0).1 "alice" "pw2" 1
      = ((create_user (fun s => s) DB.empty "alice" "pw1" 0).1, false)
    ∧ verify_user (fun s => s)
        (create_user (fun s => s) DB.empty "alice" "pw1" 0).1 "alice" "pw1"
      = some 1
    ∧ verify_user (fun s => s)
        (create_user (fun s => s) DB.empty "alice" "pw1" 0).1 "alice" "pw2"
      = none :=
  create_user_duplicate (fun s => s) DB.empty "alice" "pw1" "pw2" 0 1
    (by simp [DB.empty]) (by decide)

/-- C6: key acquisition — an explicit (non-empty) key is used verbatim
with no change to the key file; an existing key file is loaded; otherwise
the fresh key is persisted and used.  A second store on the same data
directory (no explicit key) reproduces the first store's key and file
state, and with equal keys decryption inverts the first instance's
encryption. -/
theorem key_management (k : String) (hk : k ≠ "") (file : Option String)
    (g g2 s : String) (cipherOf : String → Fernet) (hs : s ≠ "") :
    obtainKey (some k) file g = (k, file)
    ∧ (∀ c, obtainKey none (some c) g = (c, some c))
    ∧ obtainKey none none g = (g, some g)
    ∧ obtainKey none (obtainKey none file g).2 g2 = obtainKey none file g
    ∧ decryptData (cipherOf (obtainKey none (obtainKey none file g).2 g2).1)
        (encryptData (cipherOf (obtainKey none file g).1) s) = .ok s := by
  refine ⟨by simp [obtainKey, hk], fun c => rfl, rfl, ?_, ?_⟩
  · cases file <;> rfl
  · have hkey : (obtainKey none (obtainKey none file g).2 g2).1
        = (obtainKey none file g).1 := by cases file <;> rfl
    rw [hkey]
    exact decrypt_encrypt _ s hs

/-- Witness for C6 at concrete keys and an initially absent key file. -/
theorem key_management_witness :
    obtainKey (some "KEY") none "G1" = ("KEY", none)
    ∧ (∀ c, obtainKey none (some c) "G1" = (c, some c))
    ∧ obtainKey none none "G1" = ("G1", some "G1")
    ∧ obtainKey none (obtainKey none none "G1").2 "G2"
        = obtainKey none none "G1"
    ∧ decryptData (tagCipher)
        (encryptData (tagCipher) "secret") = .ok "secret" :=
  key_management "KEY" (by decide) none "G1" "G2" "secret"
    (fun _ => tagCipher) (by decide)

/-- C7: decryption is authenticated — a ciphertext that is not a token
produced under the store's key never decrypts (the cipher reports failure
rather than another plaintext), the store's `_decrypt` surfaces this as an
error, and `get_credentials` propagates it instead of returning data. -/
theorem tamper_detection (f : Fernet) (c : String) (hc : c ≠ "")
    (htam : ∀ s, c ≠ f.enc s) :
    f.dec c = none
    ∧ decryptData f c = .error ()
    ∧ (∀ db u svc r,
        db.credentials.find?
          (fun x => x.user_id == u && x.service_name == svc) = some r →
        r.encrypted_url = some c →
        get_credentials f db u svc = .error ()) := by
  have hdec : f.dec c = none := by
    cases hd : f.dec c with
    | none => rfl
    | some t => exact absurd (f.auth c t hd) (htam t)
  have hdecr : decryptData f c = .error () := by
    simp only [decryptData, if_neg hc, hdec]
  refine ⟨hdec, hdecr, fun db u svc r hfind hurl => ?_⟩
  unfold get_credentials
  rw [hfind]
  simp only [hurl, decField]
  rw [if_pos (by simpa using hc), hdecr]
  rfl

/-- Witness for C7: the string "X" is not a token of the concrete cipher,
and a store row holding it makes `get_credentials` fail. -/
theorem tamper_detection_witness :
    decryptData tagCipher "X" = .error ()
    ∧ get_credentials tagCipher
        ⟨[], 1, [⟨1, "radarr", some "X", none, 0, 0⟩], []⟩ 1 "radarr"
      = .error () := by
  have htam : ∀ s, ("X" : String) ≠ tagCipher.enc s := by
    intro s h
    have h2 : ("X" : String).data = 'T' :: s.data := congrArg String.data h
    injection h2 with ha hb
    exact absurd ha (by decide)
  exact ⟨(tamper_detection tagCipher "X" (by decide) htam).2.1,
    (tamper_detection tagCipher "X" (by decide) htam).2.2
      ⟨[], 1, [⟨1, "radarr", some "X", none, 0, 0⟩], []⟩ 1 "radarr"
      ⟨1, "radarr", some "X", none, 0, 0⟩ rfl rfl⟩

/-- C8: multi-tenant isolation — a credential save under user `A` changes
no result of `get_credentials` / `get_all_credentials` scoped to a
different user `B` (even for the same service name), a setting save under
`A` changes no result of `get_setting` / `get_all_settings` scoped to `B`,
and neither save touches the other table at all. -/
theorem tenant_isolation (f : Fernet) (db : DB) (A B : Nat) (hAB : A ≠ B)
    (svcA svc : String) (url key : Option String) (t : Nat)
    (sk sv sk2 : String) :
    get_credentials f (save_credentials f db A svcA url key t) B svc
      = get_credentials f db B svc
    ∧ get_all_credentials f (save_credentials f db A svcA url key t) B
      = get_all_credentials f db B
    ∧ get_setting (save_setting db A sk sv) B sk2 = get_setting db B sk2
    ∧ get_all_settings (save_setting db A sk sv) B = get_all_settings db B
    ∧ (save_credentials f db A svcA url key t).settings = db.settings
    ∧ (save_setting db A sk sv).credentials = db.credentials := by
  have hBA : ¬B = A := fun h => hAB h.symm
  have hfindc : (save_credentials f db A svcA url key t).credentials.find?
      (fun r => r.user_id == B && r.service_name == svc)
      = db.credentials.find?
        (fun r => r.user_id == B && r.service_name == svc) := by
    unfold save_credentials
    simp only
    split
    · apply find?_map_of_preserve
      · intro x
        by_cases hx : (x.user_id == A && x.service_name == svcA) = true <;>
          simp [hx]
      · intro x hPx
        simp only [Bool.and_eq_true, beq_iff_eq] at hPx
        rw [if_neg (by simp [hPx.1, hBA])]
    · rw [List.find?_append]
      have hnew : ([(⟨A, svcA, encField f url, encField f key, t, t⟩ :
          CredRow)].find? (fun r => r.user_id == B && r.service_name == svc))
          = none := by
        rw [List.find?_eq_none]
        intro x hx
        rw [List.mem_singleton] at hx
        subst hx
        simp [hAB]
      rw [hnew, Option.or_none]
  have hfiltc : (save_credentials f db A svcA url key t).credentials.filter
      (fun r => r.user_id == B)
      = db.credentials.filter (fun r => r.user_id == B) := by
    unfold save_credentials
    simp only
    split
    · apply filter_map_of_preserve
      · intro x
        by_cases hx : (x.user_id == A && x.service_name == svcA) = true <;>
          simp [hx]
      · intro x hPx
        simp only [beq_iff_eq] at hPx
        rw [if_neg (by simp [hPx, hBA])]
    · rw [List.filter_append]
      have hnew : ([(⟨A, svcA, encField f url, encField f key, t, t⟩ :
          CredRow)].filter (fun r => r.user_id == B)) = [] := by
        simp [hAB]
      rw [hnew, List.append_nil]
  have hfinds : (save_setting db A sk sv).settings.find?
      (fun r => r.user_id == B && r.setting_key == sk2)
      = db.settings.find? (fun r => r.user_id == B && r.setting_key == sk2) := by
    unfold save_setting
    split
    · apply find?_map_of_preserve
      · intro x
        by_cases hx : (x.user_id == A && x.setting_key == sk) = true <;>
          simp [hx]
      · intro x hPx
        simp only [Bool.and_eq_true, beq_iff_eq] at hPx
        rw [if_neg (by simp [hPx.1, hBA])]
    · rw [List.find?_append]
      have hnew : ([(⟨A, sk, sv⟩ : SettingRow)].find?
          (fun r => r.user_id == B && r.setting_key == sk2)) = none := by
        rw [List.find?_eq_none]
        intro x hx
        rw [List.mem_singleton] at hx
        subst hx
        simp [hAB]
      rw [hnew, Option.or_none]
  have hfilts : (save_setting db A sk sv).settings.filter
      (fun r => r.user_id == B)
      = db.settings.filter (fun r => r.user_id == B) := by
    unfold save_setting
    split
    · apply filter_map_of_preserve
      · intro x
        by_cases hx : (x.user_id == A && x.setting_key == sk) = true <;>
          simp [hx]
      · intro x hPx
        simp only [beq_iff_eq] at hPx
        rw [if_neg (by simp [hPx, hBA])]
    · rw [List.filter_append]
      have hnew : ([(⟨A, sk, sv⟩ : SettingRow)].filter
          (fun r => r.user_id == B)) = [] := by
        simp [hAB]
      rw [hnew, List.append_nil]
  refine ⟨?_, ?_, ?_, ?_, ?_, ?_⟩
  · unfold get_credentials
    rw [hfindc]
  · unfold get_all_credentials
    rw [hfiltc]
  · unfold get_setting
    rw [hfinds]
  · unfold get_all_settings
    rw [hfilts]
  · unfold save_credentials
    simp only
    split <;> rfl
  · unfold save_setting
    split <;> rfl

/-- Witness for C8: user 1 saves, user 2 reads, on a concrete store. -/
theorem tenant_isolation_witness :
    get_credentials tagCipher
        (save_credentials tagCipher DB.empty 1 "radarr"
          (some "http://a") (some "k1") 0) 2 "radarr"
      = get_credentials tagCipher DB.empty 2 "radarr"
    ∧ get_all_credentials tagCipher
        (save_credentials tagCipher DB.empty 1 "radarr"
          (some "http://a") (some "k1") 0) 2
      = get_all_credentials tagCipher DB.empty 2
    ∧ get_setting (save_setting DB.empty 1 "provider" "openai") 2 "provider"
      = get_setting DB.empty 2 "provider"
    ∧ get_all_settings (save_setting DB.empty 1 "provider" "openai") 2
      = get_all_settings DB.empty 2
    ∧ (save_credentials tagCipher DB.empty 1 "radarr"
        (some "http://a") (some "k1") 0).settings = DB.empty.settings
    ∧ (save_setting DB.empty 1 "provider" "openai").credentials
      = DB.empty.credentials :=
  tenant_isolation tagCipher DB.empty 1 2 (by decide) "radarr" "radarr"
    (some "http://a") (some "k1") 0 "provider" "openai" "provider"

/-- C4: `change_password` re-verifies the old password before any write —
if verification fails it returns `false` with the store unchanged; if it
succeeds (for a store with unique usernames and positive ids) it returns
`true`, after which the new password verifies to the same id and the old
one reports not-found. -/
theorem change_password_spec (H : String → String) (db : DB)
    (u old_pw new_pw : String)
    (hnames : db.users.Pairwise (fun a b => a.username ≠ b.username))
    (hids : ∀ r ∈ db.users, r.id ≠ 0)
    (hH : H old_pw ≠ H new_pw) :
    (verify_user H db u old_pw = none →
      change_password H db u old_pw new_pw = (db, false))
    ∧ (∀ i, verify_user H db u old_pw = some i →
        (change_password H db u old_pw new_pw).2 = true
        ∧ verify_user H (change_password H db u old_pw new_pw).1 u new_pw
            = some i
        ∧ verify_user H (change_password H db u old_pw new_pw).1 u old_pw
            = none) := by
  constructor
  · intro h
    unfold change_password
    rw [h]
  · intro i hvi
    have hH' : H new_pw ≠ H old_pw := fun h => hH h.symm
    unfold verify_user at hvi
    cases hfind : db.users.find?
        (fun r => r.username == u && r.password_hash == H old_pw) with
    | none =>
      rw [hfind] at hvi
      exact absurd hvi (by simp)
    | some r =>
      rw [hfind] at hvi
      simp only [Option.map_some', Option.some.injEq] at hvi
      have hmem := List.mem_of_find?_eq_some hfind
      have hP := List.find?_some hfind
      simp only [Bool.and_eq_true, beq_iff_eq] at hP
      have hi0 : i ≠ 0 := hvi ▸ hids r hmem
      have hv : verify_user H db u old_pw = some i := by
        unfold verify_user
        rw [hfind]
        simp [hvi]
      have hcp : change_password H db u old_pw new_pw
          = ({ db with users := db.users.map (fun x => if x.id == i then { x with password_hash := H new_pw } else x) }, true) := by
        unfold change_password
        rw [hv]
        dsimp only
        rw [if_neg (by simp [hi0])]
      have hshift : ((db.users.map (fun x => if x.id == i then { x with password_hash := H new_pw } else x)).find?
          (fun x => x.username == u && x.password_hash == H new_pw))
          = ((db.users.find?
              (fun x => x.username == u && x.password_hash == H old_pw)).map
            (fun x => if x.id == i then { x with password_hash := H new_pw } else x)) := by
        apply find?_map_shift
        intro x hx
        by_cases hxu : x.username = u
        · have hxr : x = r := pairwise_mem_eq (fun a => a.username) db.users
            hnames hx hmem (hxu.trans hP.1.symm)
          subst hxr
          rw [if_pos (by simp [hvi])]
          simp [hP.1, hP.2]
        · have hfx : (x.username == u) = false := by
            simp [hxu]
          by_cases hxi : (x.id == i) = true
          · rw [if_pos hxi]
            simp [hfx]
          · rw [if_neg hxi]
            simp [hfx]
      have hnone : ((db.users.map (fun x => if x.id == i then { x with password_hash := H new_pw } else x)).find?
          (fun x => x.username == u && x.password_hash == H old_pw)) = none := by
        rw [List.find?_eq_none]
        intro y hy
        obtain ⟨x, hx, rfl⟩ := List.mem_map.mp hy
        by_cases hxu : x.username = u
        · have hxr : x = r := pairwise_mem_eq (fun a => a.username) db.users
            hnames hx hmem (hxu.trans hP.1.symm)
          subst hxr
          rw [if_pos (by simp [hvi])]
          simp [hH']
        · by_cases hxi : (x.id == i) = true
          · rw [if_pos hxi]
            simp [hxu]
          · rw [if_neg hxi]
            simp [hxu]
      refine ⟨by rw [hcp], ?_, ?_⟩
      · rw [hcp]
        simp only [verify_user]
        rw [hshift, hfind]
        simp [hvi]
      · rw [hcp]
        simp only [verify_user]
        rw [hnone]
        rfl

/-- Witness for C4: "bob" changes "secret1" to "secret2" on a concrete
store and the verification outcomes flip accordingly. -/
theorem change_password_spec_witness :
    (change_password (fun s => s) ⟨[⟨1, "bob", "secret1", 0⟩], 2, [], []⟩
        "bob" "secret1" "secret2").2 = true
    ∧ verify_user (fun s => s)
        (change_password (fun s => s) ⟨[⟨1, "bob", "secret1", 0⟩], 2, [], []⟩
          "bob" "secret1" "secret2").1 "bob" "secret2" = some 1
    ∧ verify_user (fun s => s)
        (change_password (fun s => s) ⟨[⟨1, "bob", "secret1", 0⟩], 2, [], []⟩
          "bob" "secret1" "secret2").1 "bob" "secret1" = none :=
  (change_password_spec (fun s => s) ⟨[⟨1, "bob", "secret1", 0⟩], 2, [], []⟩
    "bob" "secret1" "secret2" (by simp) (by simp) (by decide)).2 1 rfl

/-- C5: `verify_user` returns id `i` exactly when a `users` row exists
whose username equals the argument and whose stored digest equals the
digest of the supplied password, with `i` its id (exact equality, for a
store with unique usernames); in particular, after creating a fresh user
the same password verifies to the fresh id and a password with a
different digest reports not-found. -/
theorem verify_user_spec (H : String → String) (db : DB) (u pw : String)
    (i : Nat)
    (hnames : db.users.Pairwise (fun a b => a.username ≠ b.username)) :
    (verify_user H db u pw = some i
      ↔ ∃ r ∈ db.users, r.username = u ∧ r.password_hash = H pw ∧ r.id = i)
    ∧ (∀ u2 pwa pwb t, (∀ r ∈ db.users, r.username ≠ u2) →
        verify_user H (create_user H db u2 pwa t).1 u2 pwa
            = some db.nextUserId
        ∧ (H pwa ≠ H pwb →
            verify_user H (create_user H db u2 pwa t).1 u2 pwb = none)) := by
  constructor
  · constructor
    · intro h
      unfold verify_user at h
      cases hfind : db.users.find?
          (fun r => r.username == u && r.password_hash == H pw) with
      | none =>
        rw [hfind] at h
        exact absurd h (by simp)
      | some r =>
        rw [hfind] at h
        simp only [Option.map_some', Option.some.injEq] at h
        have hP := List.find?_some hfind
        simp only [Bool.and_eq_true, beq_iff_eq] at hP
        exact ⟨r, List.mem_of_find?_eq_some hfind, hP.1, hP.2, h⟩
    · rintro ⟨r, hmem, hru, hrh, hri⟩
      unfold verify_user
      have hsome : (db.users.find?
          (fun x => x.username == u && x.password_hash == H pw)).isSome :=
        List.find?_isSome.mpr ⟨r, hmem, by simp [hru, hrh]⟩
      obtain ⟨r', hfind⟩ := Option.isSome_iff_exists.mp hsome
      have hP' := List.find?_some hfind
      simp only [Bool.and_eq_true, beq_iff_eq] at hP'
      have hr : r' = r := pairwise_mem_eq (fun a => a.username) db.users
        hnames (List.mem_of_find?_eq_some hfind) hmem (hP'.1.trans hru.symm)
      rw [hfind, hr]
      simp [hri]
  · intro u2 pwa pwb t hfresh
    exact ⟨verify_after_create H db u2 pwa t hfresh,
      fun hab => verify_after_create_wrong H db u2 pwa pwb t hfresh hab⟩

/-- Witness for C5 on a concrete store: the lookup equivalence for "bob"
and the create/verify corollary for a fresh "carol". -/
theorem verify_user_spec_witness :
    ((verify_user (fun s => s) ⟨[⟨1, "bob", "secret1", 0⟩], 2, [], []⟩
        "bob" "secret1" = some 1)
      ↔ ∃ r ∈ ([⟨1, "bob", "secret1", 0⟩] : List UserRow),
          r.username = "bob" ∧ r.password_hash = "secret1" ∧ r.id = 1)
    ∧ verify_user (fun s => s)
        (create_user (fun s => s) ⟨[⟨1, "bob", "secret1", 0⟩], 2, [], []⟩
          "carol" "pwC" 4).1 "carol" "pwC" = some 2
    ∧ verify_user (fun s => s)
        (create_user (fun s => s) ⟨[⟨1, "bob", "secret1", 0⟩], 2, [], []⟩
          "carol" "pwC" 4).1 "carol" "wrong" = none := by
  have h := verify_user_spec (fun s => s)
    ⟨[⟨1, "bob", "secret1", 0⟩], 2, [], []⟩ "bob" "secret1" 1 (by simp)
  exact ⟨h.1, (h.2 "carol" "pwC" "wrong" 4 (by simp)).1,
    (h.2 "carol" "pwC" "wrong" 4 (by simp)).2 (by decide)⟩

end MediaAgent
